import Mathlib

/-!
Verification of `ObjectListTableModelViewQt.py` (marcel-goldschen-ohm/ModelViewPyQt).

The Python module implements a Qt table model (`ObjectListTableModelQt`) binding a
dynamic list of arbitrary Python objects and a list of property-descriptor dicts to
Qt's model/view protocol, plus a view (`ObjectListTableViewQt`) assigning per-type
edit delegates.

Shallow embedding conventions:
* Python objects/values are modelled by the tree type `PyVal`; an object's
  attribute dictionary is an association list.  `getattr`/`setattr` succeed on
  `PyVal.obj` nodes and raise (return `none`) otherwise.  `copy.deepcopy` is the
  identity under value semantics.
* Fallible Python expressions are embedded as `Option`/pairs with a success flag;
  Python's `None` return of a model callback is `Option.none` and the
  `True`/`False`/`None` results of `setData` are the three-valued `PyRet`.
* Qt integer constants (roles, item flags) keep their documented numeric values.
  `QModelIndex` row/column of a valid index are natural numbers, as Qt only
  produces valid indices with nonnegative coordinates.  Strings are `List Char`
  and Python's `str.index("." )`/slicing are embedded on character lists.
* Python list indexing `l[i]`, `del l[i]`, `l.insert(i, x)` and slice deletion are
  embedded with Python semantics (negative indices wrap; `IndexError` is `none`).
-/

/-- A Python value: primitives carry their type (payloads of `float`/`datetime`
are opaque, they are only moved around, never computed with); `callable` is a
bound method (calling it succeeds); `obj` is an object whose attribute dictionary
is an association list from attribute names to values. -/
inductive PyVal where
  | pyNone : PyVal
  | pyBool (b : Bool) : PyVal
  | pyInt (n : Int) : PyVal
  | pyFloat (u : Nat) : PyVal
  | pyStr (s : List Char) : PyVal
  | pyDatetime (u : Nat) : PyVal
  | callable (u : Nat) : PyVal
  | obj (attrs : List (List Char × PyVal)) : PyVal

/-- Python's `type(...)`, restricted to the classes the module distinguishes
(`bool`, `float`, `datetime` are compared against; all user classes collapse
to `tObject`). -/
inductive PyType where
  | tNoneType | tBool | tInt | tFloat | tStr | tDatetime | tMethod | tObject
  deriving DecidableEq

def PyVal.typeOf : PyVal → PyType
  | .pyNone => .tNoneType
  | .pyBool _ => .tBool
  | .pyInt _ => .tInt
  | .pyFloat _ => .tFloat
  | .pyStr _ => .tStr
  | .pyDatetime _ => .tDatetime
  | .callable _ => .tMethod
  | .obj _ => .tObject

def PyVal.isCallable : PyVal → Bool
  | .callable _ => true
  | _ => false

/-- First value bound to `name` in an attribute dictionary. -/
def lookupAttr : List (List Char × PyVal) → List Char → Option PyVal
  | [], _ => none
  | (k, v) :: rest, name => if k = name then some v else lookupAttr rest name

/-- Update (or add) the binding of `name` in an attribute dictionary. -/
def updateAttr : List (List Char × PyVal) → List Char → PyVal → List (List Char × PyVal)
  | [], name, v => [(name, v)]
  | (k, w) :: rest, name, v =>
    if k = name then (k, v) :: rest else (k, w) :: updateAttr rest name v

/-- Python `getattr(obj, name)`: `none` models a raised `AttributeError`. -/
def pyGetattr : PyVal → List Char → Option PyVal
  | .obj attrs, name => lookupAttr attrs name
  | _, _ => none

/-- Python `setattr(obj, name, v)`: succeeds exactly on objects, returning the
updated object; `none` models the raised exception on non-objects. -/
def pySetattr : PyVal → List Char → PyVal → Option PyVal
  | .obj attrs, name, v => some (.obj (updateAttr attrs name v))
  | _, _, _ => none

/-- `attr.index "." ` followed by the two slices `attr[0:p]`, `attr[p+1:]`:
`some (head, tail)` splits at the first dot, `none` models the raised
`ValueError` when there is no dot. -/
def splitAtDot : List Char → Option (List Char × List Char)
  | [] => none
  | c :: cs =>
    if c = '.' then some ([], cs)
    else
      match splitAtDot cs with
      | some (h, t) => some (c :: h, t)
      | none => none

theorem splitAtDot_tail_length_lt :
    ∀ (l h t : List Char), splitAtDot l = some (h, t) → t.length < l.length := by
  intro l
  induction l with
  | nil => intro h t hs; simp [splitAtDot] at hs
  | cons c cs ih =>
    intro h t hs
    by_cases hc : c = '.'
    · simp [splitAtDot, hc] at hs
      obtain ⟨h1, h2⟩ := hs
      subst h2
      simp only [List.length_cons]
      omega
    · simp [splitAtDot, hc] at hs
      cases hsplit : splitAtDot cs with
      | none => rw [hsplit] at hs; simp at hs
      | some ht =>
        rw [hsplit] at hs
        simp at hs
        have := ih ht.1 ht.2 (by rw [hsplit])
        simp [← hs.2]
        omega

/-- Embedding of the module's `getAttrRecursive(obj, attr)`: split `attr` at its
first dot, follow the head attribute and recurse on the tail; with no dot,
plain `getattr`.  `none` models any raised exception. -/
def getAttrRecursive (o : PyVal) (attr : List Char) : Option PyVal :=
  match hs : splitAtDot attr with
  | some (hd, tl) =>
    match pyGetattr o hd with
    | some child => getAttrRecursive child tl
    | none => none
  | none => pyGetattr o attr
termination_by attr.length
decreasing_by exact splitAtDot_tail_length_lt attr hd tl hs

/-- Embedding of the module's `setAttrRecursive(obj, attr, value)`.  The Python
code mutates the child object in place; under value semantics this is writing
the updated child back into the parent.  `none` models any raised exception. -/
def setAttrRecursive (o : PyVal) (attr : List Char) (value : PyVal) : Option PyVal :=
  match hs : splitAtDot attr with
  | some (hd, tl) =>
    match pyGetattr o hd with
    | some child =>
      match setAttrRecursive child tl value with
      | some child2 => pySetattr o hd child2
      | none => none
    | none => none
  | none => pySetattr o attr value
termination_by attr.length
decreasing_by exact splitAtDot_tail_length_lt attr hd tl hs

/-- Specification-side nested lookup: `getattr(...getattr(obj, a1)..., an)`. -/
def getAttrPath (o : PyVal) : List (List Char) → Option PyVal
  | [] => some o
  | a :: rest =>
    match pyGetattr o a with
    | some child => getAttrPath child rest
    | none => none

/-- Specification-side nested update: assign `v` to the leaf attribute reached
by the component path, updating every intermediate object. -/
def setAttrPath (o : PyVal) : List (List Char) → PyVal → Option PyVal
  | [], _ => none
  | [a], v => pySetattr o a v
  | a :: b :: rest, v =>
    match pyGetattr o a with
    | some child =>
      match setAttrPath child (b :: rest) v with
      | some child2 => pySetattr o a child2
      | none => none
    | none => none

/-- Join path components with dots: `joinDots [a1, ..., an] = "a1.….an"`. -/
def joinDots : List (List Char) → List Char
  | [] => []
  | [a] => a
  | a :: b :: rest => a ++ '.' :: joinDots (b :: rest)

theorem splitAtDot_none_of_no_dot (c : List Char) (h : '.' ∉ c) :
    splitAtDot c = none := by
  induction c with
  | nil => rfl
  | cons x xs ih =>
    have hx : x ≠ '.' := fun hx => h (hx ▸ List.mem_cons_self x xs)
    have hxs : '.' ∉ xs := fun hm => h (List.mem_cons_of_mem x hm)
    simp [splitAtDot, hx, ih hxs]

theorem splitAtDot_append (c t : List Char) (h : '.' ∉ c) :
    splitAtDot (c ++ '.' :: t) = some (c, t) := by
  induction c with
  | nil => simp [splitAtDot]
  | cons x xs ih =>
    have hx : x ≠ '.' := fun hx => h (hx ▸ List.mem_cons_self x xs)
    have hxs : '.' ∉ xs := fun hm => h (List.mem_cons_of_mem x hm)
    simp [splitAtDot, hx, ih hxs]

/-! ### Qt constants and protocol types -/

def qtDisplayRole : Nat := 0
def qtEditRole : Nat := 2

def qtItemIsSelectable : Nat := 1
def qtItemIsEditable : Nat := 2
def qtItemIsEnabled : Nat := 32
def qtItemNeverHasChildren : Nat := 64

/-- Modelled from the Qt framework (not repository code): the flags returned by
`QAbstractTableModel.flags` for Qt 5, namely
`ItemIsSelectable|ItemIsEnabled|ItemNeverHasChildren` on a valid index and
`NoItemFlags` on an invalid one. -/
def qtBaseTableFlags (valid : Bool) : Nat :=
  if valid then qtItemIsSelectable ||| qtItemIsEnabled ||| qtItemNeverHasChildren else 0

/-- A `QModelIndex` as seen by the model callbacks.  Qt hands the model only
indices whose `row()`/`column()` are nonnegative when valid, so the
coordinates are naturals. -/
structure QModelIndex where
  isValid : Bool
  row : Nat
  column : Nat

inductive QtOrientation where
  | horizontal | vertical
  deriving DecidableEq

/-- A value returned by `headerData`: a property's header string or a 1-based
object number. -/
inductive HeaderVal where
  | text (s : List Char) : HeaderVal
  | num (n : Int) : HeaderVal

/-- The Python value returned by `setData`: `True`, `False` or `None`. -/
inductive PyRet where
  | retTrue | retFalse | retNone
  deriving DecidableEq

/-! ### String constants used by the module (as character lists) -/

def strWrite : List Char := ['W', 'r', 'i', 't', 'e']
def strReadWrite : List Char := ['R', 'e', 'a', 'd', '/', 'W', 'r', 'i', 't', 'e']
def strButton : List Char := ['b', 'u', 't', 't', 'o', 'n']
def strFileDialog : List Char := ['f', 'i', 'l', 'e', 'D', 'i', 'a', 'l', 'o', 'g']
def strPercentC : List Char := ['%', 'c']

/-- `needle.isPrefixOf hay` written out on character lists. -/
def beginsWith : List Char → List Char → Bool
  | [], _ => true
  | _ :: _, [] => false
  | a :: as, b :: bs => a = b && beginsWith as bs

/-- Python's substring test `needle in hay`. -/
def containsSub (needle hay : List Char) : Bool :=
  beginsWith needle hay ||
    match hay with
    | [] => false
    | _ :: t => containsSub needle t

/-! ### Python list primitives (with Python's negative-index semantics) -/

/-- Python `xs[i]`: negative indices count from the end; `none` is a raised
`IndexError`. -/
def pyGet {α : Type} (xs : List α) (i : Int) : Option α :=
  if 0 ≤ i then xs.get? i.toNat
  else if 0 ≤ (xs.length : Int) + i then xs.get? ((xs.length : Int) + i).toNat
  else none

/-- Python `del xs[i]`: `some` is the list after deletion, `none` a raised
`IndexError`. -/
def pyDelAt {α : Type} (xs : List α) (i : Int) : Option (List α) :=
  if 0 ≤ i then
    if i < (xs.length : Int) then some (xs.eraseIdx i.toNat) else none
  else if 0 ≤ (xs.length : Int) + i then some (xs.eraseIdx ((xs.length : Int) + i).toNat)
  else none

/-- The module's repeated clamp `min([max([0, idx]), L - 1])`. -/
def clampToIndex (L : Nat) (idx : Int) : Int := min (max 0 idx) ((L : Int) - 1)

/-! ### Property descriptors and the model -/

/-- A property-descriptor dict.  Each recognised key is an `Option` field
(`none` = key absent).  `dtype` holds a Python type object; `choices` entries
are opaque values (the module only passes them to the combo-box delegate). -/
structure PropDesc where
  attr : Option (List Char)
  header : Option (List Char)
  dtype : Option PyType
  mode : Option (List Char)
  choices : Option (List PyVal)
  action : Option (List Char)
  text : Option (List Char)

/-- A descriptor with no keys. -/
def PropDesc.empty : PropDesc := ⟨none, none, none, none, none, none, none⟩

/-- State of an `ObjectListTableModelQt` (the Qt parent pointer is dropped). -/
structure ObjectListTableModelQt where
  objects : List PyVal
  properties : List PropDesc
  isRowObjects : Bool
  isDynamic : Bool
  templateObject : Option PyVal

namespace ObjectListTableModelQt

/-- `getObject`: the object addressed by an index (row when `isRowObjects`,
column otherwise); `None` on an invalid index or `IndexError`. -/
def getObject (m : ObjectListTableModelQt) (index : QModelIndex) : Option PyVal :=
  if !index.isValid then none
  else m.objects.get? (if m.isRowObjects then index.row else index.column)

/-- `getProperty`: the property descriptor addressed by an index. -/
def getProperty (m : ObjectListTableModelQt) (index : QModelIndex) : Option PropDesc :=
  if !index.isValid then none
  else m.properties.get? (if m.isRowObjects then index.column else index.row)

def rowCount (m : ObjectListTableModelQt) : Nat :=
  if m.isRowObjects then m.objects.length else m.properties.length

def columnCount (m : ObjectListTableModelQt) : Nat :=
  if m.isRowObjects then m.properties.length else m.objects.length

/-- `data(index, role)`: the attribute value for the display/edit roles;
`None` (= `none`) on an invalid index, a missing object/property, another
role, or any exception from the attribute lookup. -/
def data (m : ObjectListTableModelQt) (index : QModelIndex) (role : Nat) : Option PyVal :=
  if !index.isValid then none
  else
    match m.getObject index, m.getProperty index with
    | some o, some prop =>
      if role = qtDisplayRole ∨ role = qtEditRole then
        match prop.attr with
        | some a => getAttrRecursive o a
        | none => none
      else none
    | _, _ => none

/-- `setData(index, value, role)`.  Returns the Python result together with the
updated model.  The `'button'` action calls the bound method named by
`'attr'` (a pure success in this embedding); the edit role writes through
`setAttrRecursive`, which under value semantics replaces the stored object.
The QVariant/QString conversions are identities here. -/
def setData (m : ObjectListTableModelQt) (index : QModelIndex) (value : PyVal)
    (role : Nat) : PyRet × ObjectListTableModelQt :=
  if !index.isValid then (.retFalse, m)
  else
    match m.getObject index, m.getProperty index with
    | some o, some prop =>
      let objectIndex := if m.isRowObjects then index.row else index.column
      let editStep : PyRet × ObjectListTableModelQt :=
        if role = qtEditRole then
          match prop.attr with
          | some a =>
            match setAttrRecursive o a value with
            | some o2 => (.retTrue, { m with objects := m.objects.set objectIndex o2 })
            | none => (.retFalse, m)
          | none => (.retFalse, m)
        else (.retFalse, m)
      match prop.action with
      | some act =>
        if act = strButton then
          match prop.attr with
          | some a =>
            match getAttrRecursive o a with
            | some f => if f.isCallable then (.retTrue, m) else (.retFalse, m)
            | none => (.retFalse, m)
          | none => (.retFalse, m)
        else editStep
      | none => editStep
    | _, _ => (.retNone, m)

/-- `flags(index)`: base table flags, plus enabled/selectable for a cell with a
property descriptor, plus editable when the `'mode'` (default `"Read/Write"`)
contains `"Write"`. -/
def flags (m : ObjectListTableModelQt) (index : QModelIndex) : Nat :=
  let f := qtBaseTableFlags index.isValid
  if !index.isValid then f
  else
    match m.getProperty index with
    | none => f
    | some prop =>
      let f := f ||| qtItemIsEnabled ||| qtItemIsSelectable
      if containsSub strWrite (prop.mode.getD strReadWrite) then f ||| qtItemIsEditable
      else f

/-- `headerData(section, orientation, role)`.  The section is an `Int` exactly
as in Python: on the property axis `self.properties[section]` uses Python
indexing (negative sections wrap), with `IndexError`/`KeyError` giving `None`;
on the object axis the code explicitly requires `0 <= section < len(objects)`. -/
def headerData (m : ObjectListTableModelQt) (sect : Int) (orientation : QtOrientation)
    (role : Nat) : Option HeaderVal :=
  if role ≠ qtDisplayRole then none
  else if (orientation = QtOrientation.horizontal ∧ m.isRowObjects = true) ∨
          (orientation = QtOrientation.vertical ∧ m.isRowObjects = false) then
    match pyGet m.properties sect with
    | some prop => prop.header.map HeaderVal.text
    | none => none
  else if 0 ≤ sect ∧ sect < (m.objects.length : Int) then some (.num (sect + 1))
  else none

end ObjectListTableModelQt

/-- The loop body of `insertObjects`: for each `objectIndex` in
`range(i, i + num)` insert a deep copy of the template, or (failing that) of
the object at the clamped `copyIndex`; with no template and an empty list the
iteration does nothing.  Under value semantics `copy.deepcopy` is the
identity.  `List.insertIdx` agrees with Python `list.insert` here because the
insertion position never exceeds the list length in these calls. -/
def insertObjectsLoop (template : Option PyVal) :
    List PyVal → Nat → Nat → List PyVal
  | objs, _, 0 => objs
  | objs, objectIndex, n + 1 =>
    match template with
    | some t => insertObjectsLoop template (objs.insertIdx objectIndex t) (objectIndex + 1) n
    | none =>
      if objs.length ≠ 0 then
        let copyIndex := min objectIndex (objs.length - 1)
        insertObjectsLoop template
          (objs.insertIdx objectIndex ((objs.get? copyIndex).getD PyVal.pyNone))
          (objectIndex + 1) n
      else insertObjectsLoop template objs (objectIndex + 1) n

namespace ObjectListTableModelQt

/-- `insertObjects(i, num)`: refuse when `num <= 0` or there is nothing to copy
from; otherwise clamp `i` to `[0, len(objects)]` and run the insertion loop. -/
def insertObjects (m : ObjectListTableModelQt) (i num : Int) :
    Bool × ObjectListTableModelQt :=
  if (m.objects.length = 0 ∧ m.templateObject.isNone) ∨ num ≤ 0 then (false, m)
  else
    let i2 := (min (max 0 i) (m.objects.length : Int)).toNat
    (true, { m with objects := insertObjectsLoop m.templateObject m.objects i2 num.toNat })

/-- `removeObjects(i, num)`: clamp `i` and `num`, save `objects[0]` as the
template when the whole list is being removed and none is set, then delete the
slice `objects[i : i + num]`. -/
def removeObjects (m : ObjectListTableModelQt) (i num : Int) :
    Bool × ObjectListTableModelQt :=
  if m.objects.length = 0 ∨ num ≤ 0 then (false, m)
  else
    let L : Int := m.objects.length
    let i2 := min (max 0 i) (L - 1)
    let num2 := min num (L - i2)
    let tmpl :=
      if num2 = L ∧ m.templateObject.isNone then some ((m.objects.get? 0).getD PyVal.pyNone)
      else m.templateObject
    (true, { m with
              templateObject := tmpl,
              objects := m.objects.take i2.toNat ++ m.objects.drop (i2 + num2).toNat })

end ObjectListTableModelQt

/-- The deletion loop of `moveObjects` (`for i in reversed(indices): del
self.objects[i]`), run on the already-reversed list.  The `Bool` is `false`
when a `del` raises `IndexError`; the list is then the partially mutated state
at the moment of the exception (the surrounding `except` keeps it). -/
def delLoop : List PyVal → List Int → Bool × List PyVal
  | objs, [] => (true, objs)
  | objs, i :: rest =>
    match pyDelAt objs i with
    | some objs2 => delLoop objs2 rest
    | none => (false, objs)

/-- The reinsertion loop of `moveObjects`: the `k`-th moved object is inserted
at `min(max(0, moveToIndex + k), len), counting `k` from `i`. -/
def insLoop (moveToIndex : Int) : List PyVal → List PyVal → Nat → List PyVal
  | objs, [], _ => objs
  | objs, x :: rest, k =>
    let j := (min (max 0 (moveToIndex + (k : Int))) (objs.length : Int)).toNat
    insLoop moveToIndex (objs.insertIdx j x) rest (k + 1)

namespace ObjectListTableModelQt

/-- `moveObjects(indices, moveToIndex)`: refuse on lists of length `<= 1`;
clamp every index and the target; collect the addressed objects; delete the
indices in reversed order (an `IndexError` here is caught, returning `False`
with the partially mutated list); reinsert the collected objects at
consecutive clamped positions. -/
def moveObjects (m : ObjectListTableModelQt) (indices : List Int) (moveToIndex : Int) :
    Bool × ObjectListTableModelQt :=
  if m.objects.length ≤ 1 then (false, m)
  else
    let L := m.objects.length
    let idxs := indices.map (clampToIndex L)
    let mto := clampToIndex L moveToIndex
    let objectsToMove := idxs.map (fun i => (pyGet m.objects i).getD PyVal.pyNone)
    match delLoop m.objects idxs.reverse with
    | (true, objs2) => (true, { m with objects := insLoop mto objs2 objectsToMove 0 })
    | (false, objsPartial) => (false, { m with objects := objsPartial })

/-- `clearObjects()`: save `objects[0]` as template when none is set, then
empty the list. -/
def clearObjects (m : ObjectListTableModelQt) : ObjectListTableModelQt :=
  if m.objects.length ≠ 0 then
    let tmpl := if m.templateObject.isNone then some ((m.objects.get? 0).getD PyVal.pyNone)
                else m.templateObject
    { m with templateObject := tmpl, objects := [] }
  else m

/-- `propertyType(propertyIndex)`: the `'dtype'` key if present, else the type
of the `'attr'` attribute on the template object, else on the first object;
`None` when nothing applies or on any exception (the whole body is wrapped in
`try/except`); the descriptor lookup uses Python indexing. -/
def propertyType (m : ObjectListTableModelQt) (propertyIndex : Int) : Option PyType :=
  match pyGet m.properties propertyIndex with
  | none => none
  | some prop =>
    match prop.dtype with
    | some t => some t
    | none =>
      match prop.attr with
      | none => none
      | some a =>
        match m.templateObject with
        | some t => (getAttrRecursive t a).map PyVal.typeOf
        | none =>
          match m.objects with
          | o :: _ => (getAttrRecursive o a).map PyVal.typeOf
          | [] => none

end ObjectListTableModelQt

/-! ### The view's delegate assignment (`ObjectListTableViewQt.setModel`) -/

/-- A custom edit delegate constructed by `setModel`, with the constructor
arguments the Python code passes. -/
inductive Delegate where
  | comboBox (choices : List PyVal) : Delegate
  | fileDialog : Delegate
  | pushButton (text : List Char) : Delegate
  | checkBox : Delegate
  | floatEdit : Delegate
  | dateTimeEdit (format : List Char) : Delegate

/-- The axis a delegate is attached to (`setItemDelegateForColumn` vs
`setItemDelegateForRow`). -/
inductive Axis where
  | row | column
  deriving DecidableEq

/-- The delegate chosen for property `i` by the `if/elif` chain in the
`setModel` loop, or `none` when no branch applies. -/
def delegateForProperty (m : ObjectListTableModelQt) (i : Nat) (prop : PropDesc) :
    Option Delegate :=
  match prop.choices with
  | some cs => some (.comboBox cs)
  | none =>
    if prop.action.getD [] = strFileDialog then some .fileDialog
    else if prop.action.getD [] = strButton then some (.pushButton (prop.text.getD []))
    else
      let dtype := m.propertyType (i : Int)
      if dtype = some .tBool then some .checkBox
      else if dtype = some .tFloat then some .floatEdit
      else if dtype = some .tDatetime then some (.dateTimeEdit (prop.text.getD strPercentC))
      else none

/-- The `for i, prop in enumerate(model.properties)` loop of `setModel`,
emitting the delegate assignments it performs in order. -/
def assignLoop (m : ObjectListTableModelQt) : Nat → List PropDesc →
    List (Axis × Nat × Delegate)
  | _, [] => []
  | i, prop :: rest =>
    match delegateForProperty m i prop with
    | some d =>
      ((if m.isRowObjects then Axis.column else Axis.row), i, d) :: assignLoop m (i + 1) rest
    | none => assignLoop m (i + 1) rest

/-- All delegate assignments performed by `ObjectListTableViewQt.setModel`. -/
def setModelAssignments (m : ObjectListTableModelQt) : List (Axis × Nat × Delegate) :=
  assignLoop m 0 m.properties

/-! ### Specification-side definitions (worded from the claims, for comparison
with the embedded code) -/

/-- The claims' delegate-selection rule, stated as a first-match list: choices
⇒ combo box; action `"fileDialog"` ⇒ file dialog; action `"button"` ⇒ push
button with the descriptor's text (default empty); dtype `bool` ⇒ check box;
dtype `float` ⇒ float edit; dtype `datetime` ⇒ date-time edit with format from
the text (default `"%c"`). -/
def specDelegateRule (prop : PropDesc) (dtype : Option PyType) : Option Delegate :=
  match prop.choices with
  | some cs => some (.comboBox cs)
  | none =>
    if prop.action = some strFileDialog then some .fileDialog
    else if prop.action = some strButton then some (.pushButton (prop.text.getD []))
    else if dtype = some .tBool then some .checkBox
    else if dtype = some .tFloat then some .floatEdit
    else if dtype = some .tDatetime then some (.dateTimeEdit (prop.text.getD strPercentC))
    else none

/-- The claims' dtype-inference rule: the descriptor's `'dtype'` key, else the
type of the attribute on the template object, else on the first object, else
`None`. -/
def specInferredDtype (m : ObjectListTableModelQt) (prop : PropDesc) : Option PyType :=
  match prop.dtype with
  | some t => some t
  | none =>
    match prop.attr with
    | none => none
    | some a =>
      match m.templateObject with
      | some t => (getAttrRecursive t a).map PyVal.typeOf
      | none =>
        match m.objects with
        | o :: _ => (getAttrRecursive o a).map PyVal.typeOf
        | [] => none

/-- The invariant of claim C9: there is something to copy new objects from. -/
def hasTemplateSource (m : ObjectListTableModelQt) : Prop :=
  m.objects ≠ [] ∨ m.templateObject ≠ none

/-- Erase the positions `idxs` (sorted strictly increasing) from a list, by
erasing from the largest position down so earlier positions never shift. -/
def eraseIdxsAsc {α : Type} (objs : List α) : List Nat → List α
  | [] => objs
  | a :: rest => (eraseIdxsAsc objs rest).eraseIdx a

/-- Success of the `'button'` branch of `setData`: the property's action is
`"button"` and the attribute names a callable, which the code then calls. -/
def buttonSuccess (o : PyVal) (prop : PropDesc) : Prop :=
  prop.action = some strButton ∧
    ∃ a f, prop.attr = some a ∧ getAttrRecursive o a = some f ∧ f.isCallable = true

/-- Success of the edit branch of `setData`: no `'button'` action, edit role,
and the recursive attribute write succeeds. -/
def editSuccess (o : PyVal) (prop : PropDesc) (value : PyVal) (role : Nat) : Prop :=
  prop.action ≠ some strButton ∧ role = qtEditRole ∧
    ∃ a o2, prop.attr = some a ∧ setAttrRecursive o a value = some o2

/-! ### Helper lemmas -/

theorem getAttrRecursive_eq_split (o : PyVal) (attr : List Char) :
    getAttrRecursive o attr =
      match splitAtDot attr with
      | some (hd, tl) =>
        match pyGetattr o hd with
        | some child => getAttrRecursive child tl
        | none => none
      | none => pyGetattr o attr := by
  rw [getAttrRecursive]
  cases hsp : splitAtDot attr with
  | none => simp [hsp]
  | some pr => cases pr with | mk hd tl => simp [hsp]

theorem setAttrRecursive_eq_split (o : PyVal) (attr : List Char) (value : PyVal) :
    setAttrRecursive o attr value =
      match splitAtDot attr with
      | some (hd, tl) =>
        match pyGetattr o hd with
        | some child =>
          match setAttrRecursive child tl value with
          | some child2 => pySetattr o hd child2
          | none => none
        | none => none
      | none => pySetattr o attr value := by
  rw [setAttrRecursive]
  cases hsp : splitAtDot attr with
  | none => simp [hsp]
  | some pr => cases pr with | mk hd tl => simp [hsp]

/-! ### Claim C5 -/

/-- Claim C5: for every object and dotted attribute path `a1.…​.an` (n ≥ 1,
components dot-free), `getAttrRecursive` returns the nested `getattr` chain
value and `setAttrRecursive` assigns to the same leaf attribute of the same
intermediate object, splitting at the first dot at each recursion step. -/
theorem claim_C5_dotted_path (o v : PyVal) (comps : List (List Char))
    (hne : comps ≠ []) (hnd : ∀ c ∈ comps, '.' ∉ c) :
    getAttrRecursive o (joinDots comps) = getAttrPath o comps ∧
    setAttrRecursive o (joinDots comps) v = setAttrPath o comps v := by
  induction comps generalizing o with
  | nil => exact absurd rfl hne
  | cons a rest ih =>
    have ha : '.' ∉ a := hnd a (List.mem_cons_self a rest)
    cases rest with
    | nil =>
      constructor
      · rw [show joinDots [a] = a from rfl, getAttrRecursive_eq_split,
            splitAtDot_none_of_no_dot a ha]
        cases hpg : pyGetattr o a <;> simp [getAttrPath, hpg]
      · rw [show joinDots [a] = a from rfl, setAttrRecursive_eq_split,
            splitAtDot_none_of_no_dot a ha]
        simp [setAttrPath]
    | cons b rest2 =>
      have hrest : ∀ c ∈ b :: rest2, '.' ∉ c := fun c hc =>
        hnd c (List.mem_cons_of_mem a hc)
      have hj : joinDots (a :: b :: rest2) = a ++ '.' :: joinDots (b :: rest2) := rfl
      have hsplit : splitAtDot (joinDots (a :: b :: rest2)) =
          some (a, joinDots (b :: rest2)) := by
        rw [hj]; exact splitAtDot_append a (joinDots (b :: rest2)) ha
      constructor
      · rw [getAttrRecursive_eq_split, hsplit]
        cases hpg : pyGetattr o a with
        | none => simp [getAttrPath, hpg]
        | some child =>
          simp only [getAttrPath, hpg]
          exact (ih child (by simp) hrest).1
      · rw [setAttrRecursive_eq_split, hsplit]
        cases hpg : pyGetattr o a with
        | none => simp [setAttrPath, hpg]
        | some child =>
          simp only [setAttrPath, hpg]
          rw [(ih child (by simp) hrest).2]

/-- Witness for C5 at the path `c.y` on a two-level object. -/
theorem claim_C5_dotted_path_witness :
    getAttrRecursive (PyVal.obj [(['c'], PyVal.obj [(['y'], PyVal.pyInt 2)])])
        (joinDots [['c'], ['y']]) =
      getAttrPath (PyVal.obj [(['c'], PyVal.obj [(['y'], PyVal.pyInt 2)])]) [['c'], ['y']] ∧
    setAttrRecursive (PyVal.obj [(['c'], PyVal.obj [(['y'], PyVal.pyInt 2)])])
        (joinDots [['c'], ['y']]) (PyVal.pyInt 7) =
      setAttrPath (PyVal.obj [(['c'], PyVal.obj [(['y'], PyVal.pyInt 2)])]) [['c'], ['y']]
        (PyVal.pyInt 7) :=
  claim_C5_dotted_path _ _ [['c'], ['y']] (by simp) (by decide)

/-! ### Claim C4 -/

/-- Claim C4: with `isRowObjects` true, `rowCount` is the number of objects and
`columnCount` the number of properties; with it false, the two are swapped. -/
theorem claim_C4_row_column_counts (m : ObjectListTableModelQt) :
    (m.isRowObjects = true →
      m.rowCount = m.objects.length ∧ m.columnCount = m.properties.length) ∧
    (m.isRowObjects = false →
      m.rowCount = m.properties.length ∧ m.columnCount = m.objects.length) := by
  constructor <;> intro h <;>
    simp [ObjectListTableModelQt.rowCount, ObjectListTableModelQt.columnCount, h]

/-- Witness for C4 on a 1-object, 2-property row-objects model. -/
theorem claim_C4_row_column_counts_witness :
    (ObjectListTableModelQt.mk [PyVal.pyInt 1] [PropDesc.empty, PropDesc.empty]
        true true none).rowCount = 1 ∧
    (ObjectListTableModelQt.mk [PyVal.pyInt 1] [PropDesc.empty, PropDesc.empty]
        true true none).columnCount = 2 :=
  (claim_C4_row_column_counts _).1 rfl

/-! ### Claim C2 -/

/-- Claim C2: for a valid index addressing an existing object and property,
`data` with the display or edit role returns
`getAttrRecursive(object, property['attr'])`; for an invalid index, a missing
object or property (out-of-range row/column), any other role, or a raising
attribute lookup (`none` results, including a missing `'attr'` key), it
returns `None`. -/
theorem claim_C2_data_characterization (m : ObjectListTableModelQt)
    (index : QModelIndex) (role : Nat) :
    (index.isValid = false → m.data index role = none) ∧
    (m.getObject index = none ∨ m.getProperty index = none → m.data index role = none) ∧
    (role ≠ qtDisplayRole ∧ role ≠ qtEditRole → m.data index role = none) ∧
    (∀ o prop a, m.getObject index = some o → m.getProperty index = some prop →
      prop.attr = some a → (role = qtDisplayRole ∨ role = qtEditRole) →
      m.data index role = getAttrRecursive o a) ∧
    (∀ o prop, m.getObject index = some o → m.getProperty index = some prop →
      prop.attr = none → m.data index role = none) := by
  have hvfalse : index.isValid = false → m.data index role = none := by
    intro hv; simp [ObjectListTableModelQt.data, hv]
  refine ⟨hvfalse, ?_, ?_, ?_, ?_⟩
  · intro h
    cases hv : index.isValid with
    | false => exact hvfalse hv
    | true =>
      cases ho : m.getObject index with
      | none => simp [ObjectListTableModelQt.data, hv, ho]
      | some o =>
        cases hp : m.getProperty index with
        | none => simp [ObjectListTableModelQt.data, hv, ho, hp]
        | some prop => rw [ho, hp] at h; simp at h
  · intro h
    cases hv : index.isValid with
    | false => exact hvfalse hv
    | true =>
      cases ho : m.getObject index with
      | none => simp [ObjectListTableModelQt.data, hv, ho]
      | some o =>
        cases hp : m.getProperty index with
        | none => simp [ObjectListTableModelQt.data, hv, ho, hp]
        | some prop =>
          simp [ObjectListTableModelQt.data, hv, ho, hp, h.1, h.2]
  · intro o prop a ho hp ha hrole
    have hv : index.isValid = true := by
      cases hv : index.isValid with
      | true => rfl
      | false => rw [ObjectListTableModelQt.getObject, hv] at ho; simp at ho
    rcases hrole with h | h <;> subst h <;>
      simp [ObjectListTableModelQt.data, hv, ho, hp, ha, qtDisplayRole, qtEditRole]
  · intro o prop ho hp ha
    have hv : index.isValid = true := by
      cases hv : index.isValid with
      | true => rfl
      | false => rw [ObjectListTableModelQt.getObject, hv] at ho; simp at ho
    by_cases hrole : role = qtDisplayRole ∨ role = qtEditRole <;>
      simp [ObjectListTableModelQt.data, hv, ho, hp, ha, hrole]

/-- Witness for C2: a 1-object, 1-property model where the display role reads
the object's `x` attribute. -/
theorem claim_C2_data_characterization_witness :
    (ObjectListTableModelQt.mk [PyVal.obj [(['x'], PyVal.pyInt 5)]]
        [PropDesc.mk (some ['x']) none none none none none none] true true none).data
      ⟨true, 0, 0⟩ qtDisplayRole =
      getAttrRecursive (PyVal.obj [(['x'], PyVal.pyInt 5)]) ['x'] :=
  (claim_C2_data_characterization _ ⟨true, 0, 0⟩ qtDisplayRole).2.2.2.1
    (PyVal.obj [(['x'], PyVal.pyInt 5)])
    (PropDesc.mk (some ['x']) none none none none none none) ['x']
    rfl rfl rfl (Or.inl rfl)

/-! ### Claim C7 -/

/-- Claim C7: for a valid index with an existing property descriptor, `flags`
includes `ItemIsEnabled` and `ItemIsSelectable`, and includes `ItemIsEditable`
iff the descriptor's `'mode'` (defaulting to `"Read/Write"`) contains the
substring `"Write"`. -/
theorem claim_C7_flags (m : ObjectListTableModelQt) (index : QModelIndex)
    (prop : PropDesc) (hv : index.isValid = true)
    (hp : m.getProperty index = some prop) :
    m.flags index &&& qtItemIsEnabled ≠ 0 ∧
    m.flags index &&& qtItemIsSelectable ≠ 0 ∧
    (m.flags index &&& qtItemIsEditable ≠ 0 ↔
      containsSub strWrite (prop.mode.getD strReadWrite) = true) := by
  cases hc : containsSub strWrite (prop.mode.getD strReadWrite) <;>
    simp [ObjectListTableModelQt.flags, hv, hp, hc, qtBaseTableFlags] <;>
    decide

/-- Witness for C7 on a descriptor with no `'mode'` key (default editable). -/
theorem claim_C7_flags_witness :
    ((ObjectListTableModelQt.mk [] [PropDesc.empty] true true none).flags
        ⟨true, 0, 0⟩ &&& qtItemIsEnabled ≠ 0) ∧
    ((ObjectListTableModelQt.mk [] [PropDesc.empty] true true none).flags
        ⟨true, 0, 0⟩ &&& qtItemIsSelectable ≠ 0) ∧
    (((ObjectListTableModelQt.mk [] [PropDesc.empty] true true none).flags
        ⟨true, 0, 0⟩ &&& qtItemIsEditable ≠ 0) ↔
      containsSub strWrite (PropDesc.empty.mode.getD strReadWrite) = true) :=
  claim_C7_flags _ ⟨true, 0, 0⟩ PropDesc.empty rfl rfl

/-! ### Claim C6 -/

/-- Counterexample to claim C6 as stated: on the property axis the descriptor
lookup `self.properties[section]` uses Python indexing, so the out-of-range
section `-1` (not in `[0, 1)` for a single descriptor) wraps to the last
descriptor and `headerData` returns its header text instead of `None`. -/
theorem claim_C6_counterexample :
    (ObjectListTableModelQt.mk []
        [PropDesc.mk (some ['x']) (some ['h']) none none none none none]
        true true none).headerData (-1) QtOrientation.horizontal qtDisplayRole =
      some (HeaderVal.text ['h']) ∧
    ((-1 : Int) < 0 ∧
      (1 : Int) ≤ 1) := by
  exact ⟨rfl, by norm_num⟩

/-- Claim C6, amended: `headerData` with a role other than `DisplayRole`
returns `None`; with `DisplayRole` on the property axis it returns the
`'header'` text of the descriptor located by Python list indexing — a section
in `[0, count)` addresses `properties[section]` and a negative section in
`[-count, 0)` wraps to `properties[count + section]` — and `None` when the
section is below `-count` or at least `count`, or the descriptor has no
`'header'` key; with `DisplayRole` on the object axis it returns the 1-based
object number `section + 1` when `0 ≤ section < len(objects)` and `None`
otherwise. -/
theorem claim_C6_headerData_amended (m : ObjectListTableModelQt) (sect : Int)
    (orientation : QtOrientation) (role : Nat) :
    (role ≠ qtDisplayRole → m.headerData sect orientation role = none) ∧
    (((orientation = QtOrientation.horizontal ∧ m.isRowObjects = true) ∨
        (orientation = QtOrientation.vertical ∧ m.isRowObjects = false)) →
      (∀ prop, 0 ≤ sect → m.properties[sect.toNat]? = some prop →
        m.headerData sect orientation qtDisplayRole = prop.header.map HeaderVal.text) ∧
      (∀ prop, sect < 0 → 0 ≤ (m.properties.length : Int) + sect →
        m.properties[((m.properties.length : Int) + sect).toNat]? = some prop →
        m.headerData sect orientation qtDisplayRole = prop.header.map HeaderVal.text) ∧
      (((m.properties.length : Int) ≤ sect ∨ (m.properties.length : Int) + sect < 0) →
        m.headerData sect orientation qtDisplayRole = none)) ∧
    (¬ ((orientation = QtOrientation.horizontal ∧ m.isRowObjects = true) ∨
        (orientation = QtOrientation.vertical ∧ m.isRowObjects = false)) →
      m.headerData sect orientation qtDisplayRole =
        (if 0 ≤ sect ∧ sect < (m.objects.length : Int) then some (HeaderVal.num (sect + 1))
         else none)) := by
  refine ⟨?_, ?_, ?_⟩
  · intro hrole
    simp [ObjectListTableModelQt.headerData, hrole]
  · intro haxis
    refine ⟨?_, ?_, ?_⟩
    · intro prop hpos hget
      simp [ObjectListTableModelQt.headerData, haxis, pyGet, hpos, hget]
    · intro prop hneg hwrap hget
      have hnotpos : ¬ (0 ≤ sect) := by omega
      simp [ObjectListTableModelQt.headerData, haxis, pyGet, hnotpos, hwrap, hget]
    · intro hout
      rcases hout with hbig | hsmall
      · have hpos : 0 ≤ sect := le_trans (Int.ofNat_nonneg _) hbig
        have hget : m.properties[sect.toNat]? = none := by
          apply List.getElem?_eq_none
          omega
        simp [ObjectListTableModelQt.headerData, haxis, pyGet, hpos, hget]
      · have hnotpos : ¬ (0 ≤ sect) := by omega
        have hnotwrap : ¬ (0 ≤ (m.properties.length : Int) + sect) := by omega
        simp [ObjectListTableModelQt.headerData, haxis, pyGet, hnotpos, hnotwrap]
  · intro haxis
    by_cases hrange : 0 ≤ sect ∧ sect < (m.objects.length : Int) <;>
      simp [ObjectListTableModelQt.headerData, haxis, hrange]

/-- Witness for the amended C6: positive sections, a wrapping negative
section, an out-of-range section, another role and the object axis, on a
concrete model with two descriptors and one object. -/
theorem claim_C6_headerData_amended_witness :
    (ObjectListTableModelQt.mk [PyVal.pyInt 1]
        [PropDesc.mk none (some ['a']) none none none none none,
         PropDesc.mk none (some ['b']) none none none none none]
        true true none).headerData (-1) QtOrientation.horizontal qtDisplayRole =
      (PropDesc.mk none (some ['b']) none none none none none).header.map
        HeaderVal.text := by
  have h := (claim_C6_headerData_amended
    (ObjectListTableModelQt.mk [PyVal.pyInt 1]
        [PropDesc.mk none (some ['a']) none none none none none,
         PropDesc.mk none (some ['b']) none none none none none]
        true true none) (-1) QtOrientation.horizontal qtDisplayRole).2.1
    (Or.inl ⟨rfl, rfl⟩)
  exact h.2.1 (PropDesc.mk none (some ['b']) none none none none none)
    (by norm_num) (by norm_num) rfl

/-! ### Claim C1 -/

/-- Counterexample to claim C1 as stated: with a valid index but an empty
objects list the addressed object does not exist, and `setData` returns
Python `None` (the `return None` on the missing-object/property branch), not
`False` as the claim requires for every unsuccessful write. -/
theorem claim_C1_counterexample :
    ((ObjectListTableModelQt.mk []
        [PropDesc.mk (some ['x']) none none none none none none]
        true true none).setData ⟨true, 0, 0⟩ (PyVal.pyInt 5) qtEditRole).1 =
      PyRet.retNone ∧
    PyRet.retNone ≠ PyRet.retFalse ∧ PyRet.retNone ≠ PyRet.retTrue :=
  ⟨rfl, by decide, by decide⟩

/-- Claim C1, amended: `setData` returns `False` whenever it does not perform
the requested write — except that on a valid index whose object or property
does not exist it returns `None` — and returns `True` exactly when the
`'button'` action's method was called or the attribute was set. -/
theorem claim_C1_setData_amended (m : ObjectListTableModelQt) (index : QModelIndex)
    (value : PyVal) (role : Nat) :
    (index.isValid = false → (m.setData index value role).1 = PyRet.retFalse) ∧
    ((m.getObject index = none ∨ m.getProperty index = none) → index.isValid = true →
      (m.setData index value role).1 = PyRet.retNone) ∧
    (∀ o prop, m.getObject index = some o → m.getProperty index = some prop →
      ((m.setData index value role).1 = PyRet.retTrue ∨
        (m.setData index value role).1 = PyRet.retFalse) ∧
      ((m.setData index value role).1 = PyRet.retTrue ↔
        buttonSuccess o prop ∨ editSuccess o prop value role)) := by
  refine ⟨?_, ?_, ?_⟩
  · intro hv
    simp [ObjectListTableModelQt.setData, hv]
  · intro h hv
    cases ho : m.getObject index with
    | none => simp [ObjectListTableModelQt.setData, hv, ho]
    | some o =>
      cases hp : m.getProperty index with
      | none => simp [ObjectListTableModelQt.setData, hv, ho, hp]
      | some prop => rw [ho, hp] at h; simp at h
  · intro o prop ho hp
    have hv : index.isValid = true := by
      cases hv : index.isValid with
      | true => rfl
      | false => rw [ObjectListTableModelQt.getObject, hv] at ho; simp at ho
    cases ha : prop.action with
    | none =>
      by_cases hrole : role = qtEditRole
      · cases hattr : prop.attr with
        | none =>
          refine ⟨Or.inr ?_, ?_⟩ <;>
            simp [ObjectListTableModelQt.setData, hv, ho, hp, ha, hrole, hattr,
                  buttonSuccess, editSuccess]
        | some a =>
          cases hset : setAttrRecursive o a value with
          | some o2 =>
            refine ⟨Or.inl ?_, ?_⟩ <;>
              simp [ObjectListTableModelQt.setData, hv, ho, hp, ha, hrole, hattr,
                    hset, buttonSuccess, editSuccess]
          | none =>
            refine ⟨Or.inr ?_, ?_⟩ <;>
              simp [ObjectListTableModelQt.setData, hv, ho, hp, ha, hrole, hattr,
                    hset, buttonSuccess, editSuccess]
      · refine ⟨Or.inr ?_, ?_⟩ <;>
          simp [ObjectListTableModelQt.setData, hv, ho, hp, ha, hrole,
                buttonSuccess, editSuccess]
    | some act =>
      by_cases hb : act = strButton
      · subst hb
        cases hattr : prop.attr with
        | none =>
          refine ⟨Or.inr ?_, ?_⟩ <;>
            simp [ObjectListTableModelQt.setData, hv, ho, hp, ha, hattr,
                  buttonSuccess, editSuccess]
        | some a =>
          cases hget : getAttrRecursive o a with
          | none =>
            refine ⟨Or.inr ?_, ?_⟩ <;>
              simp [ObjectListTableModelQt.setData, hv, ho, hp, ha, hattr, hget,
                    buttonSuccess, editSuccess]
          | some f =>
            cases hcall : f.isCallable with
            | true =>
              refine ⟨Or.inl ?_, ?_⟩ <;>
                simp [ObjectListTableModelQt.setData, hv, ho, hp, ha, hattr, hget,
                      hcall, buttonSuccess, editSuccess]
            | false =>
              refine ⟨Or.inr ?_, ?_⟩ <;>
                simp [ObjectListTableModelQt.setData, hv, ho, hp, ha, hattr, hget,
                      hcall, buttonSuccess, editSuccess]
      · by_cases hrole : role = qtEditRole
        · cases hattr : prop.attr with
          | none =>
            refine ⟨Or.inr ?_, ?_⟩ <;>
              simp [ObjectListTableModelQt.setData, hv, ho, hp, ha, hb, hrole, hattr,
                    buttonSuccess, editSuccess]
          | some a =>
            cases hset : setAttrRecursive o a value with
            | some o2 =>
              refine ⟨Or.inl ?_, ?_⟩ <;>
                simp [ObjectListTableModelQt.setData, hv, ho, hp, ha, hb, hrole, hattr,
                      hset, buttonSuccess, editSuccess]
            | none =>
              refine ⟨Or.inr ?_, ?_⟩ <;>
                simp [ObjectListTableModelQt.setData, hv, ho, hp, ha, hb, hrole, hattr,
                      hset, buttonSuccess, editSuccess]
        · refine ⟨Or.inr ?_, ?_⟩ <;>
            simp [ObjectListTableModelQt.setData, hv, ho, hp, ha, hb, hrole,
                  buttonSuccess, editSuccess]

/-- Witness for the amended C1: a successful edit-role write on a 1-object,
1-property model returns `True`. -/
theorem claim_C1_setData_amended_witness :
    (((ObjectListTableModelQt.mk [PyVal.obj [(['x'], PyVal.pyInt 1)]]
        [PropDesc.mk (some ['x']) none none none none none none]
        true true none).setData ⟨true, 0, 0⟩ (PyVal.pyInt 7) qtEditRole).1 = PyRet.retTrue ∨
      ((ObjectListTableModelQt.mk [PyVal.obj [(['x'], PyVal.pyInt 1)]]
        [PropDesc.mk (some ['x']) none none none none none none]
        true true none).setData ⟨true, 0, 0⟩ (PyVal.pyInt 7) qtEditRole).1 = PyRet.retFalse) ∧
    (((ObjectListTableModelQt.mk [PyVal.obj [(['x'], PyVal.pyInt 1)]]
        [PropDesc.mk (some ['x']) none none none none none none]
        true true none).setData ⟨true, 0, 0⟩ (PyVal.pyInt 7) qtEditRole).1 = PyRet.retTrue ↔
      buttonSuccess (PyVal.obj [(['x'], PyVal.pyInt 1)])
          (PropDesc.mk (some ['x']) none none none none none none) ∨
        editSuccess (PyVal.obj [(['x'], PyVal.pyInt 1)])
          (PropDesc.mk (some ['x']) none none none none none none)
          (PyVal.pyInt 7) qtEditRole) :=
  (claim_C1_setData_amended _ ⟨true, 0, 0⟩ (PyVal.pyInt 7) qtEditRole).2.2
    (PyVal.obj [(['x'], PyVal.pyInt 1)])
    (PropDesc.mk (some ['x']) none none none none none none) rfl rfl

/-! ### List splice helpers -/

theorem insertIdx_eq_take_cons_drop {α : Type} (x : α) :
    ∀ (k : Nat) (l : List α), k ≤ l.length →
      l.insertIdx k x = l.take k ++ x :: l.drop k
  | 0, l, _ => by simp
  | k + 1, [], h => by simp at h
  | k + 1, a :: l, h => by
    simp only [List.insertIdx_succ_cons, List.take_succ_cons, List.drop_succ_cons,
      List.cons_append]
    rw [insertIdx_eq_take_cons_drop x k l (by simpa using h)]

theorem splice_take {α : Type} (A B : List α) (x : α) :
    (A ++ x :: B).take (A.length + 1) = A ++ [x] := by
  induction A with
  | nil => simp
  | cons a A ih => simp [ih]

theorem splice_drop {α : Type} (A B : List α) (x : α) :
    (A ++ x :: B).drop (A.length + 1) = B := by
  induction A with
  | nil => simp
  | cons a A ih => simp [ih]

theorem splice_get_self {α : Type} (A B : List α) (x : α) :
    (A ++ x :: B)[A.length]? = some x := by
  induction A with
  | nil => simp
  | cons a A ih => simpa using ih

theorem splice_get_next {α : Type} (A B : List α) (x : α) :
    (A ++ x :: B)[A.length + 1]? = B[0]? := by
  induction A with
  | nil => simp
  | cons a A ih => simpa using ih

/-! ### The insertion loop as a splice -/

theorem splice_take_of_len {α : Type} (A B : List α) (x : α) (n : Nat)
    (h : A.length = n) : (A ++ x :: B).take (n + 1) = A ++ [x] := by
  subst h; exact splice_take A B x

theorem splice_drop_of_len {α : Type} (A B : List α) (x : α) (n : Nat)
    (h : A.length = n) : (A ++ x :: B).drop (n + 1) = B := by
  subst h; exact splice_drop A B x

theorem splice_get_self_of_len {α : Type} (A B : List α) (x : α) (n : Nat)
    (h : A.length = n) : (A ++ x :: B)[n]? = some x := by
  subst h; exact splice_get_self A B x

theorem splice_get_next_of_len {α : Type} (A B : List α) (x : α) (n : Nat)
    (h : A.length = n) : (A ++ x :: B)[n + 1]? = B[0]? := by
  subst h; exact splice_get_next A B x

theorem insertObjectsLoop_some (t : PyVal) :
    ∀ (n k : Nat) (objs : List PyVal), k ≤ objs.length →
      insertObjectsLoop (some t) objs k n =
        objs.take k ++ List.replicate n t ++ objs.drop k := by
  intro n
  induction n with
  | zero => intro k objs hk; simp [insertObjectsLoop]
  | succ n ih =>
    intro k objs hk
    have hlen : (objs.insertIdx k t).length = objs.length + 1 :=
      List.length_insertIdx k objs hk
    have hstep : insertObjectsLoop (some t) objs k (n + 1) =
        insertObjectsLoop (some t) (objs.insertIdx k t) (k + 1) n := rfl
    have hA : (objs.take k).length = k := by
      rw [List.length_take]; omega
    rw [hstep, ih (k + 1) (objs.insertIdx k t) (by omega),
        insertIdx_eq_take_cons_drop t k objs hk,
        splice_take_of_len _ _ _ _ hA, splice_drop_of_len _ _ _ _ hA]
    simp [List.replicate_succ]

theorem insertObjectsLoop_none :
    ∀ (n k : Nat) (objs : List PyVal), objs ≠ [] → k ≤ objs.length →
      insertObjectsLoop none objs k n =
        objs.take k ++
          List.replicate n ((objs[min k (objs.length - 1)]?).getD PyVal.pyNone) ++
          objs.drop k := by
  intro n
  induction n with
  | zero => intro k objs _ hk; simp [insertObjectsLoop]
  | succ n ih =>
    intro k objs hne hk
    have hlenpos : objs.length ≠ 0 := by
      simpa [List.length_eq_zero] using hne
    set c := (objs[min k (objs.length - 1)]?).getD PyVal.pyNone with hc
    have hstep : insertObjectsLoop none objs k (n + 1) =
        insertObjectsLoop none (objs.insertIdx k c) (k + 1) n := by
      simp [insertObjectsLoop, hlenpos, hc]
    have hlen : (objs.insertIdx k c).length = objs.length + 1 :=
      List.length_insertIdx k objs hk
    have hsplice : objs.insertIdx k c = objs.take k ++ c :: objs.drop k :=
      insertIdx_eq_take_cons_drop c k objs hk
    have hne2 : objs.insertIdx k c ≠ [] := by
      intro hfalse
      rw [hfalse] at hlen
      simp at hlen
    have hA : (objs.take k).length = k := by
      rw [List.length_take]; omega
    have hcagain : ((objs.insertIdx k c)[min (k + 1)
        ((objs.insertIdx k c).length - 1)]?).getD PyVal.pyNone = c := by
      rw [hlen, hsplice]
      rcases Nat.lt_or_ge k objs.length with hkl | hkl
      · have hmin1 : min (k + 1) (objs.length + 1 - 1) = k + 1 := by omega
        rw [hmin1, splice_get_next_of_len _ _ _ _ hA]
        have hdrop : (objs.drop k)[0]? = objs[k]? := by
          simp [List.getElem?_drop]
        rw [hdrop, hc]
        have hmin2 : min k (objs.length - 1) = k := by omega
        rw [hmin2]
      · have hkeq : k = objs.length := by omega
        have hmin1 : min (k + 1) (objs.length + 1 - 1) = k := by omega
        rw [hmin1, splice_get_self_of_len _ _ _ _ hA]
        rfl
    rw [hstep, ih (k + 1) (objs.insertIdx k c) hne2 (by omega), hcagain, hsplice,
        splice_take_of_len _ _ _ _ hA, splice_drop_of_len _ _ _ _ hA]
    simp [List.replicate_succ]

/-! ### Claim C3 -/

/-- Claim C3: `insertObjects(i, num)` returns `False` and leaves the objects
unchanged iff `num ≤ 0` or the list is empty with no template; otherwise it
returns `True` and splices exactly `num` new objects at `i` clamped to
`[0, len]`, each a (deep copy of the) template when one is set and otherwise
of the nearest existing object (`objects[min(i_clamped, len - 1)]`), growing
the length by exactly `num`. -/
theorem claim_C3_insertObjects (m : ObjectListTableModelQt) (i num : Int) :
    ((m.insertObjects i num).1 = false ∧ (m.insertObjects i num).2 = m ↔
      num ≤ 0 ∨ (m.objects = [] ∧ m.templateObject = none)) ∧
    (¬ (num ≤ 0 ∨ (m.objects = [] ∧ m.templateObject = none)) →
      (m.insertObjects i num).1 = true ∧
      (m.insertObjects i num).2.objects =
        m.objects.take ((min (max 0 i) (m.objects.length : Int)).toNat) ++
          List.replicate num.toNat
            (match m.templateObject with
             | some t => t
             | none =>
               (m.objects[min ((min (max 0 i) (m.objects.length : Int)).toNat)
                   (m.objects.length - 1)]?).getD PyVal.pyNone) ++
          m.objects.drop ((min (max 0 i) (m.objects.length : Int)).toNat) ∧
      (m.insertObjects i num).2.objects.length = m.objects.length + num.toNat) := by
  have hcond : ((m.objects.length = 0 ∧ m.templateObject.isNone) ∨ num ≤ 0) ↔
      (num ≤ 0 ∨ (m.objects = [] ∧ m.templateObject = none)) := by
    rw [Option.isNone_iff_eq_none, List.length_eq_zero]
    tauto
  set i2 : Nat := (min (max 0 i) (m.objects.length : Int)).toNat with hi2
  have hi2le : i2 ≤ m.objects.length := by
    rw [hi2]; omega
  by_cases hgc : (m.objects.length = 0 ∧ m.templateObject.isNone) ∨ num ≤ 0
  · have hres : m.insertObjects i num = (false, m) := by
      rw [ObjectListTableModelQt.insertObjects, if_pos hgc]
    refine ⟨?_, ?_⟩
    · rw [hres]
      constructor
      · intro _
        exact hcond.mp hgc
      · intro _
        exact ⟨rfl, rfl⟩
    · intro hcc
      exact absurd (hcond.mp hgc) hcc
  · have hres : m.insertObjects i num =
        (true, { m with objects := insertObjectsLoop m.templateObject m.objects i2 num.toNat }) := by
      rw [ObjectListTableModelQt.insertObjects, if_neg hgc]
    refine ⟨?_, ?_⟩
    · rw [hres]
      simp only [Prod.fst]
      constructor
      · intro hfa
        exact absurd hfa.1 (by simp)
      · intro hcc
        exact absurd (hcond.mpr hcc) hgc
    · intro _
      have hsplice : insertObjectsLoop m.templateObject m.objects i2 num.toNat =
          m.objects.take i2 ++
            List.replicate num.toNat
              (match m.templateObject with
               | some t => t
               | none => (m.objects[min i2 (m.objects.length - 1)]?).getD PyVal.pyNone) ++
            m.objects.drop i2 := by
        cases ht : m.templateObject with
        | some t => exact insertObjectsLoop_some t num.toNat i2 m.objects hi2le
        | none =>
          have hne : m.objects ≠ [] := by
            intro hemp
            exact hgc (Or.inl ⟨by simp [hemp], by simp [ht]⟩)
          exact insertObjectsLoop_none num.toNat i2 m.objects hne hi2le
      refine ⟨by rw [hres], by rw [hres]; exact hsplice, ?_⟩
      rw [hres]
      simp only
      rw [hsplice]
      simp only [List.length_append, List.length_replicate, List.length_take,
        List.length_drop]
      omega

/-- Witness for C3: inserting three copies at position 1 of a two-object list
with no template copies the nearest object `objects[1]`. -/
theorem claim_C3_insertObjects_witness :
    ((ObjectListTableModelQt.mk [PyVal.pyInt 10, PyVal.pyInt 20] [] true true
        none).insertObjects 1 3).1 = true ∧
    ((ObjectListTableModelQt.mk [PyVal.pyInt 10, PyVal.pyInt 20] [] true true
        none).insertObjects 1 3).2.objects.length = 2 + (3 : Int).toNat := by
  have h := (claim_C3_insertObjects
    (ObjectListTableModelQt.mk [PyVal.pyInt 10, PyVal.pyInt 20] [] true true none)
    1 3).2 (by simp)
  exact ⟨h.1, h.2.2⟩

/-! ### Claim C8 -/

theorem assignLoop_indices_ge (m : ObjectListTableModelQt) :
    ∀ (props : List PropDesc) (k : Nat) (e : Axis × Nat × Delegate),
      e ∈ assignLoop m k props → k ≤ e.2.1 := by
  intro props
  induction props with
  | nil => intro k e he; simp [assignLoop] at he
  | cons p rest ih =>
    intro k e he
    rw [assignLoop] at he
    cases hd : delegateForProperty m k p with
    | some d =>
      rw [hd] at he
      rcases List.mem_cons.mp he with h | h
      · rw [h]
      · exact Nat.le_of_succ_le (ih (k + 1) e h)
    | none =>
      rw [hd] at he
      exact Nat.le_of_succ_le (ih (k + 1) e he)

theorem assignLoop_filter (m : ObjectListTableModelQt) :
    ∀ (props : List PropDesc) (k j : Nat) (prop : PropDesc),
      props[j]? = some prop →
      (assignLoop m k props).filter (fun e => e.2.1 = k + j) =
        (match delegateForProperty m (k + j) prop with
         | some d => [((if m.isRowObjects then Axis.column else Axis.row), k + j, d)]
         | none => []) := by
  intro props
  induction props with
  | nil => intro k j prop hj; simp at hj
  | cons p rest ih =>
    intro k j prop hj
    cases j with
    | zero =>
      have hp : p = prop := by simpa using hj
      subst hp
      have hrest : (assignLoop m (k + 1) rest).filter (fun e => e.2.1 = k) = [] := by
        rw [List.filter_eq_nil_iff]
        intro e he
        have := assignLoop_indices_ge m rest (k + 1) e he
        simp only [decide_eq_true_eq]
        omega
      simp only [Nat.add_zero]
      rw [assignLoop]
      cases hd : delegateForProperty m k p with
      | some d => simp [List.filter_cons, hrest]
      | none => exact hrest
    | succ j' =>
      have hj' : rest[j']? = some prop := by simpa using hj
      have hne : ¬ (k = k + (j' + 1)) := by omega
      have hsum : k + 1 + j' = k + (j' + 1) := by omega
      rw [assignLoop]
      cases hd : delegateForProperty m k p with
      | some d =>
        rw [List.filter_cons, if_neg (by simp [hne])]
        rw [← hsum]
        exact ih (k + 1) j' prop hj'
      | none =>
        rw [← hsum]
        exact ih (k + 1) j' prop hj'

/-- Claim C8: in `setModel`, each property descriptor gets at most one custom
delegate, chosen by the claim's first-matching-rule list (`specDelegateRule`)
applied to the claim's inferred dtype (`specInferredDtype`: the `'dtype'` key,
else the attribute's type on the template, else on the first object, else
`None`), and the delegate is installed on the property's column when
`isRowObjects` and on its row otherwise. -/
theorem claim_C8_delegates (m : ObjectListTableModelQt) (i : Nat) (prop : PropDesc)
    (hp : m.properties[i]? = some prop) :
    m.propertyType (i : Int) = specInferredDtype m prop ∧
    delegateForProperty m i prop = specDelegateRule prop (specInferredDtype m prop) ∧
    (setModelAssignments m).filter (fun e => e.2.1 = i) =
      (match specDelegateRule prop (specInferredDtype m prop) with
       | some d => [((if m.isRowObjects then Axis.column else Axis.row), i, d)]
       | none => []) := by
  have hfetch : pyGet m.properties (i : Int) = some prop := by
    simp [pyGet, Int.toNat_natCast, hp]
  have h1 : m.propertyType (i : Int) = specInferredDtype m prop := by
    rw [ObjectListTableModelQt.propertyType, hfetch, specInferredDtype]
  have h2 : delegateForProperty m i prop =
      specDelegateRule prop (specInferredDtype m prop) := by
    rw [delegateForProperty, specDelegateRule, ← h1]
    cases hch : prop.choices with
    | some cs => rfl
    | none =>
      cases hac : prop.action with
      | none => simp [strFileDialog, strButton]
      | some act => simp
  have h3 : (setModelAssignments m).filter (fun e => e.2.1 = i) =
      (match delegateForProperty m i prop with
       | some d => [((if m.isRowObjects then Axis.column else Axis.row), i, d)]
       | none => []) := by
    have := assignLoop_filter m m.properties 0 i prop hp
    simpa [setModelAssignments] using this
  exact ⟨h1, h2, by rw [h3, h2]⟩

/-- Witness for C8: a descriptor with a `'choices'` key on a row-objects model
gets exactly one combo-box delegate on its column. -/
theorem claim_C8_delegates_witness :
    (ObjectListTableModelQt.mk [] [PropDesc.mk none none none none
        (some [PyVal.pyInt 42]) none none] true true none).propertyType ((0 : Nat) : Int) =
      specInferredDtype
        (ObjectListTableModelQt.mk [] [PropDesc.mk none none none none
          (some [PyVal.pyInt 42]) none none] true true none)
        (PropDesc.mk none none none none (some [PyVal.pyInt 42]) none none) ∧
    delegateForProperty
        (ObjectListTableModelQt.mk [] [PropDesc.mk none none none none
          (some [PyVal.pyInt 42]) none none] true true none) 0
        (PropDesc.mk none none none none (some [PyVal.pyInt 42]) none none) =
      specDelegateRule (PropDesc.mk none none none none (some [PyVal.pyInt 42]) none none)
        (specInferredDtype
          (ObjectListTableModelQt.mk [] [PropDesc.mk none none none none
            (some [PyVal.pyInt 42]) none none] true true none)
          (PropDesc.mk none none none none (some [PyVal.pyInt 42]) none none)) ∧
    (setModelAssignments
        (ObjectListTableModelQt.mk [] [PropDesc.mk none none none none
          (some [PyVal.pyInt 42]) none none] true true none)).filter
        (fun e => e.2.1 = 0) =
      (match specDelegateRule
          (PropDesc.mk none none none none (some [PyVal.pyInt 42]) none none)
          (specInferredDtype
            (ObjectListTableModelQt.mk [] [PropDesc.mk none none none none
              (some [PyVal.pyInt 42]) none none] true true none)
            (PropDesc.mk none none none none (some [PyVal.pyInt 42]) none none)) with
       | some d =>
         [((if (ObjectListTableModelQt.mk [] [PropDesc.mk none none none none
              (some [PyVal.pyInt 42]) none none] true true none).isRowObjects
            then Axis.column else Axis.row), 0, d)]
       | none => []) :=
  claim_C8_delegates _ 0 (PropDesc.mk none none none none (some [PyVal.pyInt 42]) none none) rfl

/-! ### Claim C9 -/

theorem insertIdx_ne_nil {α : Type} (l : List α) (k : Nat) (x : α) (h : l ≠ []) :
    l.insertIdx k x ≠ [] := by
  cases l with
  | nil => exact absurd rfl h
  | cons a l =>
    cases k with
    | zero => simp
    | succ k => simp [List.insertIdx_succ_cons]

theorem insertObjectsLoop_ne_nil (template : Option PyVal) :
    ∀ (n k : Nat) (objs : List PyVal), objs ≠ [] →
      insertObjectsLoop template objs k n ≠ [] := by
  intro n
  induction n with
  | zero => intro k objs h; simpa [insertObjectsLoop] using h
  | succ n ih =>
    intro k objs h
    cases template with
    | some t =>
      exact ih (k + 1) (objs.insertIdx k t) (insertIdx_ne_nil objs k t h)
    | none =>
      have hlen : objs.length ≠ 0 := by simpa [List.length_eq_zero] using h
      have hstep : insertObjectsLoop none objs k (n + 1) =
          insertObjectsLoop none
            (objs.insertIdx k ((objs[min k (objs.length - 1)]?).getD PyVal.pyNone))
            (k + 1) n := by
        simp [insertObjectsLoop, hlen]
      rw [hstep]
      exact ih (k + 1) _ (insertIdx_ne_nil objs k _ h)

theorem pyDelAt_length {α : Type} (xs : List α) (i : Int) (ys : List α)
    (h : pyDelAt xs i = some ys) : ys.length + 1 = xs.length := by
  unfold pyDelAt at h
  by_cases h0 : 0 ≤ i
  · rw [if_pos h0] at h
    by_cases h1 : i < (xs.length : Int)
    · rw [if_pos h1] at h
      have hy : xs.eraseIdx i.toNat = ys := by injection h
      have hlt : i.toNat < xs.length := by omega
      rw [← hy, List.length_eraseIdx, if_pos hlt]
      omega
    · rw [if_neg h1] at h; simp at h
  · rw [if_neg h0] at h
    by_cases h2 : 0 ≤ (xs.length : Int) + i
    · rw [if_pos h2] at h
      have hy : xs.eraseIdx ((xs.length : Int) + i).toNat = ys := by injection h
      have hlt : ((xs.length : Int) + i).toNat < xs.length := by omega
      rw [← hy, List.length_eraseIdx, if_pos hlt]
      omega
    · rw [if_neg h2] at h; simp at h

theorem delLoop_err_length (idxs : List Int) :
    ∀ (objs res : List PyVal), delLoop objs idxs = (false, res) →
      objs.length + 1 ≤ res.length + idxs.length := by
  induction idxs with
  | nil => intro objs res h; simp [delLoop] at h
  | cons i rest ih =>
    intro objs res h
    rw [delLoop] at h
    cases hd : pyDelAt objs i with
    | some objs2 =>
      rw [hd] at h
      have h1 := ih objs2 res h
      have h2 := pyDelAt_length objs i objs2 hd
      simp only [List.length_cons]
      omega
    | none =>
      rw [hd] at h
      have hres : objs = res := by injection h
      subst hres
      simp only [List.length_cons]
      omega

theorem insLoop_length (mto : Int) :
    ∀ (toMove objs : List PyVal) (k : Nat),
      (insLoop mto objs toMove k).length = objs.length + toMove.length := by
  intro toMove
  induction toMove with
  | nil => intro objs k; simp [insLoop]
  | cons x rest ih =>
    intro objs k
    have hj : ((min (max 0 (mto + (k : Int))) (objs.length : Int)).toNat) ≤ objs.length := by
      omega
    have hstep : insLoop mto objs (x :: rest) k =
        insLoop mto
          (objs.insertIdx ((min (max 0 (mto + (k : Int))) (objs.length : Int)).toNat) x)
          rest (k + 1) := by
      simp [insLoop]
    rw [hstep, ih, List.length_insertIdx _ _ hj, List.length_cons]
    omega

theorem nodup_int_bounded_length (l : List Int) (L : Nat) (hnd : l.Nodup)
    (hb : ∀ x ∈ l, 0 ≤ x ∧ x < (L : Int)) : l.length ≤ L := by
  have h1 : l.toFinset.card = l.length := List.toFinset_card_of_nodup hnd
  have h2 : l.toFinset ⊆ Finset.Icc (0 : Int) ((L : Int) - 1) := by
    intro x hx
    rw [Finset.mem_Icc]
    have := hb x (List.mem_toFinset.mp hx)
    omega
  have h3 := Finset.card_le_card h2
  rw [Int.card_Icc] at h3
  omega

theorem clampToIndex_bounds (L : Nat) (hL : 1 ≤ L) (x : Int) :
    0 ≤ clampToIndex L x ∧ clampToIndex L x < (L : Int) := by
  unfold clampToIndex
  omega

theorem setData_preserves_shape (m : ObjectListTableModelQt) (index : QModelIndex)
    (value : PyVal) (role : Nat) :
    (m.setData index value role).2.objects.length = m.objects.length ∧
    (m.setData index value role).2.templateObject = m.templateObject := by
  simp only [ObjectListTableModelQt.setData]
  repeat' split
  all_goals simp [List.length_set]

/-- Counterexample to claim C9 as stated: on a two-object list with no
template, `moveObjects([0, 0, 0], 0)` clamps the duplicate indices to `[0, 0,
0]`, the reversed deletion loop empties the list and then raises `IndexError`,
which the `except` catches after the mutation — leaving an empty objects list
with `templateObject` still `None`, so insertion is no longer possible. -/
theorem claim_C9_counterexample :
    hasTemplateSource
      (ObjectListTableModelQt.mk [PyVal.pyInt 1, PyVal.pyInt 2] [] true true none) ∧
    ¬ hasTemplateSource
      ((ObjectListTableModelQt.mk [PyVal.pyInt 1, PyVal.pyInt 2] [] true true
          none).moveObjects [0, 0, 0] 0).2 := by
  constructor
  · exact Or.inl (by simp)
  · have hres : ((ObjectListTableModelQt.mk [PyVal.pyInt 1, PyVal.pyInt 2] [] true true
        none).moveObjects [0, 0, 0] 0).2 =
        ObjectListTableModelQt.mk [] [] true true none := rfl
    rw [hres]
    simp [hasTemplateSource]

/-- Claim C9, amended: the invariant "the objects list is non-empty or a
template object is set" is preserved by `insertObjects`, `removeObjects`,
`clearObjects` and `setData` unconditionally (`removeObjects` and
`clearObjects` save the first object into `templateObject` before emptying the
list), and by `moveObjects` whenever its clamped indices are pairwise
distinct; with duplicated indices `moveObjects` can empty the list and raise
before reinserting (see the counterexample), which is the one exception. -/
theorem claim_C9_invariant_amended (m : ObjectListTableModelQt)
    (hinv : hasTemplateSource m) :
    (∀ i num, hasTemplateSource (m.insertObjects i num).2) ∧
    (∀ i num, hasTemplateSource (m.removeObjects i num).2) ∧
    hasTemplateSource m.clearObjects ∧
    (∀ index value role, hasTemplateSource (m.setData index value role).2) ∧
    (∀ indices moveToIndex,
      (indices.map (clampToIndex m.objects.length)).Nodup →
      hasTemplateSource (m.moveObjects indices moveToIndex).2) := by
  refine ⟨?_, ?_, ?_, ?_, ?_⟩
  · -- insertObjects
    intro i num
    by_cases hgc : (m.objects.length = 0 ∧ m.templateObject.isNone) ∨ num ≤ 0
    · have hres : m.insertObjects i num = (false, m) := by
        rw [ObjectListTableModelQt.insertObjects, if_pos hgc]
      rw [hres]
      exact hinv
    · have hres : m.insertObjects i num =
          (true, { m with objects := (insertObjectsLoop m.templateObject m.objects
            ((min (max 0 i) (m.objects.length : Int)).toNat) num.toNat) }) := by
        rw [ObjectListTableModelQt.insertObjects, if_neg hgc]
      rw [hres]
      cases ht : m.templateObject with
      | some t => exact Or.inr (by simp [ht])
      | none =>
        have hne : m.objects ≠ [] := by
          rcases hinv with h | h
          · exact h
          · exact absurd ht h
        exact Or.inl (by
          show insertObjectsLoop none m.objects _ _ ≠ []
          exact insertObjectsLoop_ne_nil none _ _ m.objects hne)
  · -- removeObjects
    intro i num
    by_cases hgc : m.objects.length = 0 ∨ num ≤ 0
    · have hres : m.removeObjects i num = (false, m) := by
        rw [ObjectListTableModelQt.removeObjects, if_pos hgc]
      rw [hres]
      exact hinv
    · have hres : m.removeObjects i num =
          (true, { m with
            templateObject :=
              (if min num ((m.objects.length : Int) -
                    min (max 0 i) ((m.objects.length : Int) - 1)) =
                  (m.objects.length : Int) ∧ m.templateObject.isNone
               then some ((m.objects.get? 0).getD PyVal.pyNone)
               else m.templateObject),
            objects :=
              (m.objects.take (min (max 0 i) ((m.objects.length : Int) - 1)).toNat ++
                m.objects.drop
                  ((min (max 0 i) ((m.objects.length : Int) - 1)) +
                    min num ((m.objects.length : Int) -
                      min (max 0 i) ((m.objects.length : Int) - 1))).toNat) }) := by
        rw [ObjectListTableModelQt.removeObjects, if_neg hgc]
      rw [hres]
      have hL : 1 ≤ m.objects.length := by
        rcases not_or.mp hgc with ⟨h, _⟩
        omega
      by_cases hsave :
          min num ((m.objects.length : Int) -
              min (max 0 i) ((m.objects.length : Int) - 1)) =
            (m.objects.length : Int) ∧ m.templateObject.isNone
      · exact Or.inr (by simp [hsave])
      · cases ht : m.templateObject with
        | some t => exact Or.inr (by simp [hsave, ht])
        | none =>
          refine Or.inl ?_
          intro hemp
          have hemp2 : (m.objects.take
              (min (max 0 i) ((m.objects.length : Int) - 1)).toNat ++
              m.objects.drop
                ((min (max 0 i) ((m.objects.length : Int) - 1)) +
                  min num ((m.objects.length : Int) -
                    min (max 0 i) ((m.objects.length : Int) - 1))).toNat) = [] := by
            simpa using hemp
          have hlen := congrArg List.length hemp2
          simp only [List.length_append, List.length_take, List.length_drop,
            List.length_nil] at hlen
          have hnum2 : min num ((m.objects.length : Int) -
              min (max 0 i) ((m.objects.length : Int) - 1)) ≠ (m.objects.length : Int) := by
            intro heq
            exact hsave ⟨heq, by simp [ht]⟩
          have hnumpos : 0 < num := by
            rcases not_or.mp hgc with ⟨_, h⟩
            omega
          omega
  · -- clearObjects
    by_cases hne : m.objects.length ≠ 0
    · have hres : m.clearObjects =
          { m with
            templateObject :=
              if m.templateObject.isNone then some ((m.objects.get? 0).getD PyVal.pyNone)
              else m.templateObject,
            objects := [] } := by
        rw [ObjectListTableModelQt.clearObjects, if_pos hne]
      rw [hres]
      cases ht : m.templateObject with
      | some t => exact Or.inr (by simp [ht])
      | none => exact Or.inr (by simp [ht])
    · have hres : m.clearObjects = m := by
        rw [ObjectListTableModelQt.clearObjects, if_neg hne]
      rw [hres]
      exact hinv
  · -- setData
    intro index value role
    have h := setData_preserves_shape m index value role
    rcases hinv with hobj | htm
    · refine Or.inl ?_
      intro hemp
      have hl := congrArg List.length hemp
      rw [h.1] at hl
      simp at hl
      exact hobj hl
    · exact Or.inr (by rw [h.2]; exact htm)
  · -- moveObjects with pairwise-distinct clamped indices
    intro indices moveToIndex hnd
    by_cases hL : m.objects.length ≤ 1
    · have hres : m.moveObjects indices moveToIndex = (false, m) := by
        rw [ObjectListTableModelQt.moveObjects, if_pos hL]
      rw [hres]
      exact hinv
    · have hL2 : 2 ≤ m.objects.length := by omega
      cases hdel : delLoop m.objects
          ((indices.map (clampToIndex m.objects.length)).reverse) with
      | mk ok objs2 =>
        cases ok with
        | true =>
          have hres : m.moveObjects indices moveToIndex =
              (true, { m with objects :=
                (insLoop (clampToIndex m.objects.length moveToIndex) objs2
                  ((indices.map (clampToIndex m.objects.length)).map
                    (fun i => (pyGet m.objects i).getD PyVal.pyNone)) 0) }) := by
            rw [ObjectListTableModelQt.moveObjects, if_neg hL]
            simp only [hdel]
          rw [hres]
          refine Or.inl ?_
          intro hemp
          have hemp2 : insLoop (clampToIndex m.objects.length moveToIndex) objs2
              ((indices.map (clampToIndex m.objects.length)).map
                (fun i => (pyGet m.objects i).getD PyVal.pyNone)) 0 = [] := by
            simpa using hemp
          have hlen := congrArg List.length hemp2
          rw [insLoop_length] at hlen
          simp only [List.length_map, List.length_nil] at hlen
          have hidxnil : indices = [] := by
            have : indices.length = 0 := by omega
            simpa [List.length_eq_zero] using this
          subst hidxnil
          simp only [List.map_nil, List.reverse_nil, delLoop] at hdel
          have hobjs2 : m.objects = objs2 := by
            injection hdel
          rw [← hobjs2] at hlen
          omega
        | false =>
          have hres : m.moveObjects indices moveToIndex = (false, { m with objects := objs2 }) := by
            rw [ObjectListTableModelQt.moveObjects, if_neg hL]
            simp only [hdel]
          rw [hres]
          refine Or.inl ?_
          intro hemp
          have hemp2 : objs2 = [] := by simpa using hemp
          have herr := delLoop_err_length
            ((indices.map (clampToIndex m.objects.length)).reverse) m.objects objs2 hdel
          have hbound : (indices.map (clampToIndex m.objects.length)).length ≤
              m.objects.length := by
            apply nodup_int_bounded_length _ m.objects.length hnd
            intro x hx
            rcases List.mem_map.mp hx with ⟨y, _, rfl⟩
            exact clampToIndex_bounds m.objects.length (by omega) y
          rw [hemp2] at herr
          simp only [List.length_reverse, List.length_nil] at herr
          omega

/-- Witness for the amended C9 on a one-object model with no template:
`clearObjects` saves the object as the template, keeping insertion possible. -/
theorem claim_C9_invariant_amended_witness :
    hasTemplateSource
      (ObjectListTableModelQt.mk [PyVal.pyInt 1] [] true true none).clearObjects :=
  (claim_C9_invariant_amended
    (ObjectListTableModelQt.mk [PyVal.pyInt 1] [] true true none)
    (Or.inl (by simp))).2.2.1

/-! ### Claim C10 -/

theorem pairwise_lt_head_bound :
    ∀ (idxs : List Nat) (a L : Nat), idxs.Pairwise (· < ·) →
      (∀ x ∈ idxs, x < L) → (∀ x ∈ idxs, a < x) → a < L →
      a + idxs.length < L := by
  intro idxs
  induction idxs with
  | nil => intro a L _ _ _ ha; simpa using ha
  | cons b rest ih =>
    intro a L hp hb hgt ha
    have hrest := List.pairwise_cons.mp hp
    have hab : a < b := hgt b (List.mem_cons_self b rest)
    have hbL : b < L := hb b (List.mem_cons_self b rest)
    have h2 := ih b L hrest.2 (fun x hx => hb x (List.mem_cons_of_mem b hx))
      (fun x hx => hrest.1 x hx) hbL
    simp only [List.length_cons]
    omega

theorem eraseIdxsAsc_length {α : Type} :
    ∀ (idxs : List Nat) (objs : List α), idxs.Pairwise (· < ·) →
      (∀ x ∈ idxs, x < objs.length) →
      (eraseIdxsAsc objs idxs).length + idxs.length = objs.length := by
  intro idxs
  induction idxs with
  | nil => intro objs _ _; simp [eraseIdxsAsc]
  | cons a rest ih =>
    intro objs hp hb
    have hrest := List.pairwise_cons.mp hp
    have hlenE := ih objs hrest.2 (fun x hx => hb x (List.mem_cons_of_mem a hx))
    have hbd := pairwise_lt_head_bound rest a objs.length hrest.2
      (fun x hx => hb x (List.mem_cons_of_mem a hx)) hrest.1
      (hb a (List.mem_cons_self a rest))
    have haE : a < (eraseIdxsAsc objs rest).length := by omega
    show ((eraseIdxsAsc objs rest).eraseIdx a).length + (a :: rest).length = objs.length
    rw [List.length_eraseIdx, if_pos haE]
    simp only [List.length_cons]
    omega

theorem eraseIdxsAsc_getElem_low {α : Type} :
    ∀ (idxs : List Nat) (objs : List α) (j : Nat), (∀ x ∈ idxs, j < x) →
      (eraseIdxsAsc objs idxs)[j]? = objs[j]? := by
  intro idxs
  induction idxs with
  | nil => intro objs j _; rfl
  | cons a rest ih =>
    intro objs j hj
    show ((eraseIdxsAsc objs rest).eraseIdx a)[j]? = objs[j]?
    rw [List.getElem?_eraseIdx, if_pos (hj a (List.mem_cons_self a rest))]
    exact ih objs j (fun x hx => hj x (List.mem_cons_of_mem a hx))

theorem pyDelAt_nat {α : Type} (xs : List α) (a : Nat) (h : a < xs.length) :
    pyDelAt xs (a : Int) = some (xs.eraseIdx a) := by
  unfold pyDelAt
  rw [if_pos (by omega : (0 : Int) ≤ (a : Int)),
    if_pos (by omega : ((a : Int) < (xs.length : Int)))]
  rw [Int.toNat_natCast]

theorem delLoop_append :
    ∀ (xs ys : List Int) (objs : List PyVal),
      delLoop objs (xs ++ ys) =
        (match delLoop objs xs with
         | (true, z) => delLoop z ys
         | (false, z) => (false, z)) := by
  intro xs
  induction xs with
  | nil => intro ys objs; simp [delLoop]
  | cons i rest ih =>
    intro ys objs
    rw [List.cons_append]
    have h1 : delLoop objs (i :: (rest ++ ys)) =
        (match pyDelAt objs i with
         | some objs2 => delLoop objs2 (rest ++ ys)
         | none => (false, objs)) := rfl
    have h2 : delLoop objs (i :: rest) =
        (match pyDelAt objs i with
         | some objs2 => delLoop objs2 rest
         | none => (false, objs)) := rfl
    rw [h1, h2]
    cases hd : pyDelAt objs i with
    | some objs2 => exact ih ys objs2
    | none => rfl

theorem delLoop_reverse_sorted :
    ∀ (idxs : List Nat) (objs : List PyVal), idxs.Pairwise (· < ·) →
      (∀ x ∈ idxs, x < objs.length) →
      delLoop objs ((idxs.map (Nat.cast : Nat → Int)).reverse) =
        (true, eraseIdxsAsc objs idxs) := by
  intro idxs
  induction idxs with
  | nil => intro objs _ _; simp [delLoop, eraseIdxsAsc]
  | cons a rest ih =>
    intro objs hp hb
    have hrest := List.pairwise_cons.mp hp
    have hIH := ih objs hrest.2 (fun x hx => hb x (List.mem_cons_of_mem a hx))
    have hlenE := eraseIdxsAsc_length rest objs hrest.2
      (fun x hx => hb x (List.mem_cons_of_mem a hx))
    have hbd := pairwise_lt_head_bound rest a objs.length hrest.2
      (fun x hx => hb x (List.mem_cons_of_mem a hx)) hrest.1
      (hb a (List.mem_cons_self a rest))
    have haE : a < (eraseIdxsAsc objs rest).length := by omega
    rw [List.map_cons, List.reverse_cons, delLoop_append, hIH]
    have hfin : delLoop (eraseIdxsAsc objs rest) [(a : Int)] =
        (true, (eraseIdxsAsc objs rest).eraseIdx a) := by
      have h1 : delLoop (eraseIdxsAsc objs rest) [(a : Int)] =
          (match pyDelAt (eraseIdxsAsc objs rest) (a : Int) with
           | some objs2 => delLoop objs2 []
           | none => (false, eraseIdxsAsc objs rest)) := rfl
      rw [h1, pyDelAt_nat _ a haE]
      rfl
    exact hfin

theorem perm_cons_eraseIdx_getD {α : Type} (l : List α) (j : Nat) (d : α)
    (h : j < l.length) : l.Perm ((l[j]?).getD d :: l.eraseIdx j) := by
  rw [List.getElem?_eq_getElem h, Option.getD_some, List.eraseIdx_eq_take_drop_succ]
  have h2 : l.drop j = l[j] :: l.drop (j + 1) := List.drop_eq_getElem_cons h
  have h3 : l = l.take j ++ l[j] :: l.drop (j + 1) := by
    conv_lhs => rw [← List.take_append_drop j l, h2]
  conv_lhs => rw [h3]
  exact List.perm_middle

theorem perm_split_eraseIdxsAsc :
    ∀ (idxs : List Nat) (objs : List PyVal), idxs.Pairwise (· < ·) →
      (∀ x ∈ idxs, x < objs.length) →
      objs.Perm ((idxs.map (fun j => (objs[j]?).getD PyVal.pyNone)) ++
        eraseIdxsAsc objs idxs) := by
  intro idxs
  induction idxs with
  | nil => intro objs _ _; simp [eraseIdxsAsc]
  | cons a rest ih =>
    intro objs hp hb
    have hrest := List.pairwise_cons.mp hp
    have hIH := ih objs hrest.2 (fun x hx => hb x (List.mem_cons_of_mem a hx))
    have hlenE := eraseIdxsAsc_length rest objs hrest.2
      (fun x hx => hb x (List.mem_cons_of_mem a hx))
    have hbd := pairwise_lt_head_bound rest a objs.length hrest.2
      (fun x hx => hb x (List.mem_cons_of_mem a hx)) hrest.1
      (hb a (List.mem_cons_self a rest))
    have haE : a < (eraseIdxsAsc objs rest).length := by omega
    have hget : (eraseIdxsAsc objs rest)[a]? = objs[a]? :=
      eraseIdxsAsc_getElem_low rest objs a hrest.1
    have hsplit : (eraseIdxsAsc objs rest).Perm
        ((objs[a]?).getD PyVal.pyNone :: eraseIdxsAsc objs (a :: rest)) := by
      have hpm := perm_cons_eraseIdx_getD (eraseIdxsAsc objs rest) a PyVal.pyNone haE
      rw [hget] at hpm
      exact hpm
    have step2 := List.Perm.append_left
      (rest.map (fun j => (objs[j]?).getD PyVal.pyNone)) hsplit
    have step3 : ((rest.map (fun j => (objs[j]?).getD PyVal.pyNone)) ++
        ((objs[a]?).getD PyVal.pyNone :: eraseIdxsAsc objs (a :: rest))).Perm
        (((a :: rest).map (fun j => (objs[j]?).getD PyVal.pyNone)) ++
          eraseIdxsAsc objs (a :: rest)) := List.perm_middle
    exact (hIH.trans step2).trans step3

theorem insLoop_block (mto : Int) (hmto : 0 ≤ mto) :
    ∀ (toMove objs : List PyVal) (k : Nat),
      insLoop mto objs toMove k =
        objs.take (min (mto.toNat + k) objs.length) ++ toMove ++
          objs.drop (min (mto.toNat + k) objs.length) := by
  intro toMove
  induction toMove with
  | nil => intro objs k; simp [insLoop]
  | cons x rest ih =>
    intro objs k
    have hq : ((min (max 0 (mto + (k : Int))) (objs.length : Int)).toNat) =
        min (mto.toNat + k) objs.length := by omega
    have hqlen : min (mto.toNat + k) objs.length ≤ objs.length := by omega
    have hstep : insLoop mto objs (x :: rest) k =
        insLoop mto (objs.insertIdx (min (mto.toNat + k) objs.length) x) rest (k + 1) := by
      simp only [insLoop, hq]
    rw [hstep, ih]
    have hlen2 : (objs.insertIdx (min (mto.toNat + k) objs.length) x).length =
        objs.length + 1 := List.length_insertIdx _ _ hqlen
    have hq2 : min (mto.toNat + (k + 1))
        (objs.insertIdx (min (mto.toNat + k) objs.length) x).length =
        min (mto.toNat + k) objs.length + 1 := by
      rw [hlen2]; omega
    rw [hq2, insertIdx_eq_take_cons_drop x (min (mto.toNat + k) objs.length) objs hqlen]
    have hA : (objs.take (min (mto.toNat + k) objs.length)).length =
        min (mto.toNat + k) objs.length := by
      rw [List.length_take]; omega
    rw [splice_take_of_len _ _ _ _ hA, splice_drop_of_len _ _ _ _ hA]
    simp

/-- Claim C10: for a list of length ≥ 2, a strictly increasing list of
in-range indices and an in-range `moveToIndex`, `moveObjects` returns `True`
and the new objects list is a rearrangement of the old (same length, same
multiset): the survivors keep their relative order (`eraseIdxsAsc`) and the
selected objects are reinserted as one consecutive block starting at
`moveToIndex` clamped to the shortened list. -/
theorem claim_C10_moveObjects (m : ObjectListTableModelQt) (indices : List Int)
    (moveToIndex : Int) (hL : 2 ≤ m.objects.length)
    (hsorted : indices.Pairwise (· < ·))
    (hrange : ∀ x ∈ indices, 0 ≤ x ∧ x < (m.objects.length : Int))
    (hmto : 0 ≤ moveToIndex ∧ moveToIndex < (m.objects.length : Int)) :
    (m.moveObjects indices moveToIndex).1 = true ∧
    (m.moveObjects indices moveToIndex).2.objects.length = m.objects.length ∧
    (m.moveObjects indices moveToIndex).2.objects.Perm m.objects ∧
    (m.moveObjects indices moveToIndex).2.objects =
      (eraseIdxsAsc m.objects (indices.map Int.toNat)).take
          (min moveToIndex.toNat (eraseIdxsAsc m.objects (indices.map Int.toNat)).length) ++
        indices.map (fun i => ((m.objects[i.toNat]?).getD PyVal.pyNone)) ++
        (eraseIdxsAsc m.objects (indices.map Int.toNat)).drop
          (min moveToIndex.toNat (eraseIdxsAsc m.objects (indices.map Int.toNat)).length) := by
  have hL1 : ¬ m.objects.length ≤ 1 := by omega
  have pairwiseN : (indices.map Int.toNat).Pairwise (· < ·) := by
    rw [List.pairwise_map]
    refine hsorted.imp_of_mem ?_
    intro a b ha hb hab
    have h1 := hrange a ha
    omega
  have boundsN : ∀ x ∈ indices.map Int.toNat, x < m.objects.length := by
    intro x hx
    rcases List.mem_map.mp hx with ⟨y, hy, rfl⟩
    have := hrange y hy
    omega
  have hcast : (indices.map Int.toNat).map (Nat.cast : Nat → Int) = indices := by
    rw [List.map_map]
    have hid : ∀ x ∈ indices, ((Nat.cast : Nat → Int) ∘ Int.toNat) x = id x := by
      intro x hx
      simp only [Function.comp, id]
      exact Int.toNat_of_nonneg (hrange x hx).1
    rw [List.map_congr_left hid, List.map_id]
  have hclamp : indices.map (clampToIndex m.objects.length) = indices := by
    have hid : ∀ x ∈ indices, clampToIndex m.objects.length x = id x := by
      intro x hx
      have := hrange x hx
      unfold clampToIndex
      simp only [id]
      omega
    rw [List.map_congr_left hid, List.map_id]
  have hmtoclamp : clampToIndex m.objects.length moveToIndex = moveToIndex := by
    unfold clampToIndex; omega
  have hdelI : delLoop m.objects indices.reverse =
      (true, eraseIdxsAsc m.objects (indices.map Int.toNat)) := by
    have h := delLoop_reverse_sorted (indices.map Int.toNat) m.objects pairwiseN boundsN
    rw [hcast] at h
    exact h
  have hres : m.moveObjects indices moveToIndex =
      (true, { m with objects :=
        (insLoop moveToIndex (eraseIdxsAsc m.objects (indices.map Int.toNat))
          (indices.map (fun i => (pyGet m.objects i).getD PyVal.pyNone)) 0) }) := by
    rw [ObjectListTableModelQt.moveObjects, if_neg hL1]
    simp only [hclamp, hmtoclamp, hdelI]
  have htm : indices.map (fun i => (pyGet m.objects i).getD PyVal.pyNone) =
      indices.map (fun i => ((m.objects[i.toNat]?).getD PyVal.pyNone)) := by
    apply List.map_congr_left
    intro x hx
    have h0 := (hrange x hx).1
    rw [pyGet, if_pos h0, List.get?_eq_getElem?]
  have hobj : (m.moveObjects indices moveToIndex).2.objects =
      (eraseIdxsAsc m.objects (indices.map Int.toNat)).take
          (min moveToIndex.toNat (eraseIdxsAsc m.objects (indices.map Int.toNat)).length) ++
        indices.map (fun i => ((m.objects[i.toNat]?).getD PyVal.pyNone)) ++
        (eraseIdxsAsc m.objects (indices.map Int.toNat)).drop
          (min moveToIndex.toNat (eraseIdxsAsc m.objects (indices.map Int.toNat)).length) := by
    rw [hres]
    show insLoop moveToIndex (eraseIdxsAsc m.objects (indices.map Int.toNat))
        (indices.map (fun i => (pyGet m.objects i).getD PyVal.pyNone)) 0 = _
    rw [htm, insLoop_block moveToIndex hmto.1]
    rw [Nat.add_zero]
  have hperm0 : m.objects.Perm
      (indices.map (fun i => ((m.objects[i.toNat]?).getD PyVal.pyNone)) ++
        eraseIdxsAsc m.objects (indices.map Int.toNat)) := by
    have h := perm_split_eraseIdxsAsc (indices.map Int.toNat) m.objects pairwiseN boundsN
    rw [List.map_map] at h
    exact h
  have hperm : (m.moveObjects indices moveToIndex).2.objects.Perm m.objects := by
    rw [hobj]
    have h5 := List.Perm.append_right
      ((eraseIdxsAsc m.objects (indices.map Int.toNat)).drop
        (min moveToIndex.toNat (eraseIdxsAsc m.objects (indices.map Int.toNat)).length))
      (@List.perm_append_comm PyVal
        ((eraseIdxsAsc m.objects (indices.map Int.toNat)).take
          (min moveToIndex.toNat (eraseIdxsAsc m.objects (indices.map Int.toNat)).length))
        (indices.map (fun i => ((m.objects[i.toNat]?).getD PyVal.pyNone))))
    refine h5.trans ?_
    rw [List.append_assoc, List.take_append_drop]
    exact hperm0.symm
  refine ⟨by rw [hres], ?_, hperm, hobj⟩
  have := hperm.length_eq
  exact this

/-- Witness for C10: moving the first and last of three objects to position 1
returns `True` and yields a permutation of the original three objects. -/
theorem claim_C10_moveObjects_witness :
    ((ObjectListTableModelQt.mk [PyVal.pyInt 1, PyVal.pyInt 2, PyVal.pyInt 3] [] true true
        none).moveObjects [0, 2] 1).1 = true ∧
    ((ObjectListTableModelQt.mk [PyVal.pyInt 1, PyVal.pyInt 2, PyVal.pyInt 3] [] true true
        none).moveObjects [0, 2] 1).2.objects.length =
      (ObjectListTableModelQt.mk [PyVal.pyInt 1, PyVal.pyInt 2, PyVal.pyInt 3] [] true true
        none).objects.length ∧
    ((ObjectListTableModelQt.mk [PyVal.pyInt 1, PyVal.pyInt 2, PyVal.pyInt 3] [] true true
        none).moveObjects [0, 2] 1).2.objects.Perm
      [PyVal.pyInt 1, PyVal.pyInt 2, PyVal.pyInt 3] := by
  have h := claim_C10_moveObjects
    (ObjectListTableModelQt.mk [PyVal.pyInt 1, PyVal.pyInt 2, PyVal.pyInt 3] [] true true none)
    [0, 2] 1 (by norm_num) (by decide) (by decide) (by norm_num)
  exact ⟨h.1, h.2.1, h.2.2.1⟩
